import Mathlib

/-!
Verification development for the dependency-reconciliation helpers of this
repository (`src/helpers.js`).  The JavaScript functions are shallowly
embedded: pure string/list manipulation becomes Lean functions on `String` /
`List Char`; the external collaborators (filesystem reads, `glob.sync`, the
`npm` command runner, the download-count oracle) are passed in as explicit
function parameters, exactly as the specification singles them out as
injected capabilities.
-/

set_option linter.unusedVariables false

/-- A JavaScript value as it can reach the helper functions that use a
destructuring parameter `({name, dev})`: either a plain string (what
`getModulesFromFile` and `installModule` actually pass) or a module object
with `name` and `dev` fields. -/
inductive JSVal where
  | str (s : String)
  | obj (name : String) (dev : Bool)
deriving DecidableEq

/-- Property access `.name` performed by the destructuring parameter
`({name, dev})`.  A primitive string has no `name` property, so the access
yields `undefined` (`none`); an object yields its field. -/
def destructName : JSVal → Option String
  | JSVal.str _ => none
  | JSVal.obj n _ => some n

/-- JavaScript `String(x)` for a possibly-`undefined` string value, as the
coercion performed by `RegExp.prototype.test` on its argument. -/
def jsToString : Option String → String
  | none => "undefined"
  | some s => s

/-- One character of the class `[a-z0-9-_]` from the validation regex on
line 153 of `src/helpers.js`. -/
def isModuleChar (c : Char) : Bool :=
  decide ('a' ≤ c ∧ c ≤ 'z') || decide ('0' ≤ c ∧ c ≤ '9') || c == '-' || c == '_'

/-- `new RegExp("^([a-z0-9-_]{1,})$").test s`: the whole string is one or
more characters of the class. -/
def matchesModulePattern (s : String) : Bool :=
  decide (1 ≤ s.data.length) && s.data.all isModuleChar

/-- `isValidModule` from `src/helpers.js` lines 152-155.  The source
destructures its parameter as `({name, dev})` and runs the regex on `name`;
when the caller passes a plain string (as `getModulesFromFile` does), `name`
is `undefined` and the regex is applied to the string `"undefined"`. -/
def isValidModule (v : JSVal) : Bool :=
  matchesModulePattern (jsToString (destructName v))

/-- The `{name, dev}` module record used throughout `src/helpers.js`. -/
structure ModuleRef where
  name : String
  dev : Bool
deriving DecidableEq

/-- `getNamesFromModules` from `src/helpers.js` lines 222-224. -/
def getNamesFromModules (modules : List ModuleRef) : List String :=
  modules.map (fun m => m.name)

/-- Index of the first occurrence of `s` in `names`, or `none`. -/
def firstIndexOf : List String → String → Option Nat
  | [], _ => none
  | n :: rest, s => if n = s then some 0 else (firstIndexOf rest s).map (fun i => i + 1)

/-- JavaScript `names.indexOf(s)`: first index, `-1` when absent. -/
def indexOfName (names : List String) (s : String) : Int :=
  match firstIndexOf names s with
  | some i => (i : Int)
  | none => -1

/-- `diff` from `src/helpers.js` lines 185-188: keep the elements of `first`
whose `name` has `indexOf < 0` in the names of `second`. -/
def diff (first second : List ModuleRef) : List ModuleRef :=
  let namesFromSecond := getNamesFromModules second
  first.filter (fun m => decide (indexOfName namesFromSecond m.name < 0))

/-- One iteration of the loop in `deduplicateSimilarModules`
(`src/helpers.js` lines 248-260): the accumulator carries the
`dedupedModules` list and the parallel `dedupedModuleNames` list. -/
def dedupStep (acc : List ModuleRef × List String) (m : ModuleRef) :
    List ModuleRef × List String :=
  if indexOfName acc.2 m.name = -1 then (acc.1 ++ [m], acc.2 ++ [m.name]) else acc

/-- `deduplicateSimilarModules` from `src/helpers.js` lines 248-260. -/
def deduplicateSimilarModules (modules : List ModuleRef) : List ModuleRef :=
  (modules.foldl dedupStep ([], [])).1

/-- `deduplicate` from `src/helpers.js` lines 231-241: the `dev` partition
is deduplicated and emitted first, then the production partition. -/
def deduplicate (modules : List ModuleRef) : List ModuleRef :=
  let testModules := modules.filter (fun m => m.dev)
  let prodModules := modules.filter (fun m => !m.dev)
  deduplicateSimilarModules testModules ++ deduplicateSimilarModules prodModules

/-- Reading of the `deduplicate` contract used to compare against the
source: keep the first occurrence of each distinct name, a name being
already taken when it is in `seen`. -/
def keepFirstOccurrences (seen : List String) : List ModuleRef → List ModuleRef
  | [] => []
  | m :: rest =>
    if m.name ∈ seen then keepFirstOccurrences seen rest
    else m :: keepFirstOccurrences (m.name :: seen) rest

/-- Index of the first occurrence of the substring `pat` in `l`, or
`none` - the search of JavaScript `String.prototype.indexOf`. -/
def firstOccurIdx (pat : List Char) : List Char → Option Nat
  | [] => none
  | c :: rest =>
    if pat.isPrefixOf (c :: rest) then some 0
    else (firstOccurIdx pat rest).map (fun i => i + 1)

/-- JavaScript `l.indexOf(pat)` on strings: first index, `-1` when absent. -/
def jsIndexOf (pat : List Char) (l : List Char) : Int :=
  match firstOccurIdx pat l with
  | some i => (i : Int)
  | none => -1

/-- Modelled from the spec: the runtime's built-in/standard module list
consulted by the `is-builtin-module` dependency, which is outside `src/`.
The claims only need that `"fs"` is in the list and that registry names and
relative paths are not. -/
def builtinModules : List String :=
  ["assert", "async_hooks", "buffer", "child_process", "cluster", "console",
   "constants", "crypto", "dgram", "dns", "domain", "events", "fs", "http",
   "http2", "https", "inspector", "module", "net", "os", "path",
   "perf_hooks", "process", "punycode", "querystring", "readline", "repl",
   "stream", "string_decoder", "timers", "tls", "tty", "url", "util", "v8",
   "vm", "zlib"]

/-- `isBuiltInModule(name)` as used on line 169 of `src/helpers.js`. -/
def isBuiltInModule (name : String) : Bool :=
  builtinModules.contains name

/-- `removeBuiltInModules` from `src/helpers.js` lines 167-172. -/
def removeBuiltInModules (modules : List ModuleRef) : List ModuleRef :=
  modules.filter (fun m => !isBuiltInModule m.name)

/-- `removeLocalFiles` from `src/helpers.js` lines 176-181: keep a module
when `module.name.indexOf('./') !== 0`. -/
def removeLocalFiles (modules : List ModuleRef) : List ModuleRef :=
  modules.filter (fun m => decide (jsIndexOf "./".data m.name.data ≠ 0))

/-- `filterRegistryModules` from `src/helpers.js` lines 159-163. -/
def filterRegistryModules (modules : List ModuleRef) : List ModuleRef :=
  removeLocalFiles (removeBuiltInModules modules)

/-- A JavaScript line terminator, which `.` in a regex never matches. -/
def lineTerminator (c : Char) : Bool :=
  c == '\n' || c == '\r' || c == ' ' || c == ' '

/-- The lazy `(.*?)\)` tail of the extraction regex: consume characters
(no `)` and no line terminator) up to the first `)`.  Returns the inner
text and the input remaining after the `)`, or `none` when no `)` is
reachable. -/
def takeInner : List Char → Option (List Char × List Char)
  | [] => none
  | c :: rest =>
    if c = ')' then some ([], rest)
    else if lineTerminator c then none
    else (takeInner rest).map (fun p => (c :: p.1, p.2))

/-- The literal head `require(` of the extraction regex
`/require\((.*?)\)/g` on line 133 of `src/helpers.js`. -/
def reqPat : List Char := "require(".data

/-- One attempt of the extraction regex at the head of `l`: the literal
`require(`, then the lazy inner text, then `)`.  On success returns the
whole matched substring and the rest of the input. -/
def tryMatch (l : List Char) : Option (List Char × List Char) :=
  if reqPat.isPrefixOf l then
    match takeInner (l.drop reqPat.length) with
    | some (inner, rest) => some (reqPat ++ inner ++ [')'], rest)
    | none => none
  else none

/-- The scan of `content.match(/require\((.*?)\)/g)`: try the regex at each
position; after a success continue after the match (matches never overlap),
after a failure advance one character.  The fuel argument bounds the number
of positions visited and is instantiated with the input length. -/
def scanAux : Nat → List Char → List (List Char)
  | 0, _ => []
  | _ + 1, [] => []
  | fuel + 1, c :: rest =>
    match tryMatch (c :: rest) with
    | some (m, r) => m :: scanAux fuel r
    | none => scanAux fuel rest

/-- All matches of `/require\((.*?)\)/g` in `l`, left to right. -/
def scanMatches (l : List Char) : List (List Char) :=
  scanAux l.length l

/-- JavaScript `s.replace(pat, '')` with a string pattern: remove the first
occurrence of `pat`, leave the string unchanged when `pat` is absent. -/
def replaceFirst (pat : List Char) : List Char → List Char
  | [] => []
  | c :: rest =>
    if pat.isPrefixOf (c :: rest) then (c :: rest).drop pat.length
    else c :: replaceFirst pat rest

/-- The per-match processing of `getModulesFromFile` (`src/helpers.js`
lines 140-144): `match.replace('require', '')`, then `substring(2)`, then
`substring(0, length - 2)` (JavaScript clamps a negative end index to 0,
which truncated subtraction on `Nat` reproduces). -/
def processMatch (m : List Char) : List Char :=
  let m1 := replaceFirst "require".data m
  let m2 := m1.drop 2
  m2.take (m2.length - 2)

/-- `getModulesFromFile` from `src/helpers.js` lines 135-148.  The source
receives a path and reads the file with `fs.readFileSync`; the filesystem
read is external I/O, so the function is modelled on the file's content.
Each regex match is processed and kept when `isValidModule` accepts it -
the argument passed to `isValidModule` is the processed string. -/
def getModulesFromFile (content : String) : List String :=
  let found := scanMatches content.data
  let processed := found.map (fun m => String.mk (processMatch m))
  processed.filter (fun m => isValidModule (JSVal.str m))

/-- A well-formed import expression `require("name")` as a character
list. -/
def requireExpr (name : String) : List Char :=
  reqPat ++ ('"' :: (name.data ++ ['"', ')']))

/-- A file text assembled from a leading separator followed by
alternating `require("name")` expressions and separators:
`render s0 [(n1, t1), (n2, t2)] = s0 ++ require("n1") ++ t1 ++
require("n2") ++ t2`. -/
def render (s0 : List Char) : List (String × List Char) → List Char
  | [] => s0
  | (name, sep) :: rest => s0 ++ (requireExpr name ++ render sep rest)

/-- A separator is inert when no occurrence of the literal `require(`
starts inside it, even when the text continues with a further
`require(`. -/
abbrev InertSep (sep : List Char) : Prop :=
  ∀ p, p < sep.length → reqPat.isPrefixOf ((sep ++ reqPat).drop p) = false

/-- `POPULARITY_THRESHOLD` from `src/helpers.js` line 205. -/
def POPULARITY_THRESHOLD : Nat := 10000

/-- The value of a JavaScript function call that can also be `undefined`
(a function body without a reached `return` statement). -/
inductive JSBool where
  | undef
  | bool (b : Bool)
deriving DecidableEq

/-- JavaScript truthiness of such a value: `undefined` is falsy. -/
def jsTruthy : JSBool → Bool
  | JSBool.undef => false
  | JSBool.bool b => b

/-- The callback body written on lines 208-211 of `src/helpers.js`:
parse the response body and compare `downloads` with the threshold
(`none` models an unreachable oracle or an unparsable body).  In the
source this callback is handed to the synchronous `sync-request` API,
which takes no callback, so it never runs. -/
def popularityCallback (downloads : Option Nat) : Option Bool :=
  downloads.map (fun d => decide (d > POPULARITY_THRESHOLD))

/-- `isModulePopular` from `src/helpers.js` lines 205-212.  The parameter
is destructured as `({name, dev})`, so the string its caller passes turns
into `name = undefined` and the URL ends in `"undefined"`.  The request's
result is only ever consumed by the never-invoked callback, and the
function body has no `return` statement: the call evaluates to
`undefined`. -/
def isModulePopular (oracle : String → Option Nat) (v : JSVal) : JSBool :=
  let name := jsToString (destructName v)
  let url := "https://apa.npmjs.org/downloads/point/last-month/" ++ name
  let _unusedCallbackResult := popularityCallback (oracle url)
  JSBool.undef

/-- The outcome an `installModule` call reports through its spinner. -/
inductive InstallOutcome where
  | notTrusted (msg : String)
  | installed (msg : String)
  | failed (msg : String)
deriving DecidableEq

/-- The `npm install` command line built on lines 57-60 of
`src/helpers.js`. -/
def installCommand (m : ModuleRef) : String :=
  "npm install " ++ m.name ++ " --save" ++ (if m.dev then "-dev" else "")

/-- The success message built on lines 58-61 of `src/helpers.js`. -/
def installMessage (m : ModuleRef) : String :=
  m.name ++ " installed" ++ (if m.dev then " in devDependencies" else "")

/-- `installModule` from `src/helpers.js` lines 50-66.  `secureMode` is the
configuration toggle, `oracle` the injected download-count capability, and
`runCommand` the external package-manager capability (`true` = exit status
0).  Note the trust gate tests the truthiness of `isModulePopular(name)`
where `name` is a plain string. -/
def installModule (secureMode : Bool) (oracle : String → Option Nat)
    (runCommand : String → Bool) (m : ModuleRef) : InstallOutcome :=
  if secureMode && !(jsTruthy (isModulePopular oracle (JSVal.str m.name))) then
    InstallOutcome.notTrusted (m.name ++ " not trusted")
  else if runCommand (installCommand m) then
    InstallOutcome.installed (installMessage m)
  else
    InstallOutcome.failed (m.name ++ " installation failed")

/-- The `npm uninstall` command line built on lines 73-76 of
`src/helpers.js`. -/
def uninstallCommand (m : ModuleRef) : String :=
  "npm uninstall " ++ m.name ++ " --save" ++ (if m.dev then "-dev" else "")

/-- The removal message built on lines 74-77 of `src/helpers.js`. -/
def uninstallMessage (m : ModuleRef) : String :=
  m.name ++ " removed" ++ (if m.dev then " from devDependencies" else "")

/-- `uninstallModule` from `src/helpers.js` lines 70-81: the command is run
but its status is discarded, and the removal message is reported
unconditionally.  The returned string is the reported message. -/
def uninstallModule (runCommand : String → Bool) (m : ModuleRef) : String :=
  let _success := runCommand (uninstallCommand m)
  uninstallMessage m

/-- Modelled from the spec: the Orchestrator applies the install action to
each `toInstall` entry in sequence (the driver that loops over the diff
results is outside `src/`). -/
def installAll (secureMode : Bool) (oracle : String → Option Nat)
    (runCommand : String → Bool) (modules : List ModuleRef) : List InstallOutcome :=
  modules.map (installModule secureMode oracle runCommand)

/-- Modelled from the spec: the Orchestrator applies the uninstall action
to each `toRemove` entry in sequence. -/
def uninstallAll (runCommand : String → Bool) (modules : List ModuleRef) : List String :=
  modules.map (uninstallModule runCommand)

/-- `getFiles` from `src/helpers.js` lines 117-119.  `glob.sync` is an
external filesystem capability, modelled as a function of the glob pattern
and the ignore list.  The `path` parameter mirrors the source's unused
parameter. -/
def getFiles (globSync : String → List String → List String) (path : String) :
    List String :=
  globSync "**/*.js" ["node_modules/**/*"]

/-! ### Helper lemmas -/

theorem isValidModule_str_true (s : String) : isValidModule (JSVal.str s) = true := rfl

theorem firstIndexOf_eq_none_iff (names : List String) (s : String) :
    firstIndexOf names s = none ↔ s ∉ names := by
  induction names with
  | nil => simp [firstIndexOf]
  | cons n rest ih =>
    by_cases h : n = s
    · simp [firstIndexOf, h]
    · simp [firstIndexOf, h, ih, Ne.symm h]

theorem indexOfName_neg_iff (names : List String) (s : String) :
    indexOfName names s < 0 ↔ s ∉ names := by
  unfold indexOfName
  cases h : firstIndexOf names s with
  | none => simp [(firstIndexOf_eq_none_iff names s).mp h]
  | some i =>
    have hmem : s ∈ names := by
      by_contra hn
      rw [(firstIndexOf_eq_none_iff names s).mpr hn] at h
      cases h
    simp [hmem]

theorem indexOfName_eq_neg_one_iff (names : List String) (s : String) :
    indexOfName names s = -1 ↔ s ∉ names := by
  unfold indexOfName
  cases h : firstIndexOf names s with
  | none => simp [(firstIndexOf_eq_none_iff names s).mp h]
  | some i =>
    have hmem : s ∈ names := by
      by_contra hn
      rw [(firstIndexOf_eq_none_iff names s).mpr hn] at h
      cases h
    simp [hmem]

/-! ### C4: diff is name-only set difference preserving the first list's flags -/

/-- C4: `diff a b` returns exactly the elements of `a` whose name does not
occur as the name of any element of `b`; the `dev` flag is not part of the
equality key, each returned element keeps its flag from `a`, and the two
concrete examples of the specification evaluate as claimed. -/
theorem diff_name_only :
    (∀ a b : List ModuleRef,
      diff a b = a.filter (fun m => decide (∀ m2 ∈ b, m2.name ≠ m.name)))
    ∧ diff [⟨"a", false⟩, ⟨"b", false⟩, ⟨"c", true⟩] [⟨"b", true⟩, ⟨"c", false⟩]
        = [⟨"a", false⟩]
    ∧ diff [⟨"b", false⟩, ⟨"c", false⟩] [⟨"a", false⟩, ⟨"b", true⟩, ⟨"c", true⟩]
        = [] := by
  refine ⟨?_, by decide, by decide⟩
  intro a b
  unfold diff
  apply List.filter_congr
  intro m _
  simp only [decide_eq_decide]
  rw [indexOfName_neg_iff]
  simp [getNamesFromModules]

/-! ### C9: equal name sets give empty diffs both ways -/

/-- C9: whenever the names of `used` and the names of `declared` are the
same set, both diffs are empty. -/
theorem diff_empty_of_same_names (used declared : List ModuleRef)
    (h1 : ∀ n ∈ getNamesFromModules used, n ∈ getNamesFromModules declared)
    (h2 : ∀ n ∈ getNamesFromModules declared, n ∈ getNamesFromModules used) :
    diff used declared = [] ∧ diff declared used = [] := by
  constructor
  · unfold diff
    rw [List.filter_eq_nil_iff]
    intro m hm
    simp only [decide_eq_true_eq]
    intro hlt
    refine (indexOfName_neg_iff _ _).mp hlt (h1 m.name ?_)
    unfold getNamesFromModules
    exact List.mem_map.mpr ⟨m, hm, rfl⟩
  · unfold diff
    rw [List.filter_eq_nil_iff]
    intro m hm
    simp only [decide_eq_true_eq]
    intro hlt
    refine (indexOfName_neg_iff _ _).mp hlt (h2 m.name ?_)
    unfold getNamesFromModules
    exact List.mem_map.mpr ⟨m, hm, rfl⟩

/-- Witness for C9 at a concrete input; the name is shared across the two
partitions, which also exhibits the name-only matching. -/
theorem diff_empty_of_same_names_witness :
    diff [⟨"lodash", false⟩] [⟨"lodash", true⟩] = []
    ∧ diff [⟨"lodash", true⟩] [⟨"lodash", false⟩] = [] :=
  diff_empty_of_same_names _ _ (by decide) (by decide)

/-! ### C5: deduplicate partitions by dev and keeps first occurrences -/

theorem keepFirstOccurrences_congr (l : List ModuleRef) :
    ∀ seen1 seen2, (∀ s, s ∈ seen1 ↔ s ∈ seen2) →
      keepFirstOccurrences seen1 l = keepFirstOccurrences seen2 l := by
  induction l with
  | nil => intro _ _ _; rfl
  | cons m rest ih =>
    intro seen1 seen2 hequiv
    by_cases h : m.name ∈ seen1
    · rw [keepFirstOccurrences, keepFirstOccurrences, if_pos h,
        if_pos ((hequiv m.name).mp h)]
      exact ih _ _ hequiv
    · rw [keepFirstOccurrences, keepFirstOccurrences, if_neg h,
        if_neg (fun hh => h ((hequiv m.name).mpr hh))]
      rw [ih (m.name :: seen1) (m.name :: seen2)
        (fun s => by simp [List.mem_cons, hequiv s])]

theorem foldl_dedupStep (l : List ModuleRef) :
    ∀ ms seen, (l.foldl dedupStep (ms, seen)).1 = ms ++ keepFirstOccurrences seen l := by
  induction l with
  | nil => intro ms seen; simp [keepFirstOccurrences]
  | cons m rest ih =>
    intro ms seen
    by_cases h : m.name ∈ seen
    · have hidx : ¬ indexOfName seen m.name = -1 := by
        rw [indexOfName_eq_neg_one_iff]; simpa using h
      rw [List.foldl_cons]
      rw [show dedupStep (ms, seen) m = (ms, seen) from by
        unfold dedupStep; rw [if_neg hidx]]
      rw [ih ms seen, keepFirstOccurrences, if_pos h]
    · have hidx : indexOfName seen m.name = -1 := by
        rw [indexOfName_eq_neg_one_iff]; exact h
      rw [List.foldl_cons]
      rw [show dedupStep (ms, seen) m = (ms ++ [m], seen ++ [m.name]) from by
        unfold dedupStep; rw [if_pos hidx]]
      rw [ih (ms ++ [m]) (seen ++ [m.name]), keepFirstOccurrences, if_neg h]
      rw [keepFirstOccurrences_congr rest (seen ++ [m.name]) (m.name :: seen)
        (fun s => by simp [List.mem_append, List.mem_cons]; tauto)]
      simp [List.append_assoc]

theorem deduplicateSimilarModules_eq (l : List ModuleRef) :
    deduplicateSimilarModules l = keepFirstOccurrences [] l := by
  unfold deduplicateSimilarModules
  rw [foldl_dedupStep l [] []]
  simp

theorem keepFirstOccurrences_subset :
    ∀ (l : List ModuleRef) seen m, m ∈ keepFirstOccurrences seen l → m ∈ l := by
  intro l
  induction l with
  | nil => intro seen m hm; cases hm
  | cons a rest ih =>
    intro seen m hm
    by_cases h : a.name ∈ seen
    · rw [keepFirstOccurrences, if_pos h] at hm
      exact List.mem_cons_of_mem a (ih seen m hm)
    · rw [keepFirstOccurrences, if_neg h] at hm
      rcases List.mem_cons.mp hm with h1 | h1
      · exact h1 ▸ List.mem_cons_self a rest
      · exact List.mem_cons_of_mem a (ih _ m h1)

theorem keepFirstOccurrences_name_not_seen :
    ∀ (l : List ModuleRef) seen m, m ∈ keepFirstOccurrences seen l → m.name ∉ seen := by
  intro l
  induction l with
  | nil => intro seen m hm; cases hm
  | cons a rest ih =>
    intro seen m hm
    by_cases h : a.name ∈ seen
    · rw [keepFirstOccurrences, if_pos h] at hm
      exact ih seen m hm
    · rw [keepFirstOccurrences, if_neg h] at hm
      rcases List.mem_cons.mp hm with h1 | h1
      · exact h1 ▸ h
      · have := ih _ m h1
        intro hc
        exact this (List.mem_cons_of_mem _ hc)

theorem keepFirstOccurrences_pairwise_names :
    ∀ (l : List ModuleRef) seen,
      (keepFirstOccurrences seen l).Pairwise (fun x y => x.name ≠ y.name) := by
  intro l
  induction l with
  | nil => intro seen; exact List.Pairwise.nil
  | cons a rest ih =>
    intro seen
    by_cases h : a.name ∈ seen
    · rw [keepFirstOccurrences, if_pos h]; exact ih seen
    · rw [keepFirstOccurrences, if_neg h]
      refine List.Pairwise.cons ?_ (ih (a.name :: seen))
      intro y hy
      have := keepFirstOccurrences_name_not_seen rest (a.name :: seen) y hy
      intro hc
      exact this (hc ▸ List.mem_cons_self a.name seen)

/-- C5: `deduplicate` partitions its input by the `dev` flag, keeps within
each partition only the first occurrence of each distinct name in input
order, returns the dev partition before the production partition, its
output never holds two entries with the same `(name, dev)` pair, and the
specification's example evaluates as claimed. -/
theorem deduplicate_spec :
    (∀ l, deduplicate l =
      keepFirstOccurrences [] (l.filter (fun m => m.dev)) ++
      keepFirstOccurrences [] (l.filter (fun m => !m.dev)))
    ∧ (∀ l, (deduplicate l).Pairwise (fun x y => x.name ≠ y.name ∨ x.dev ≠ y.dev))
    ∧ deduplicate [⟨"a", false⟩, ⟨"a", false⟩, ⟨"a", true⟩]
        = [⟨"a", true⟩, ⟨"a", false⟩] := by
  have heq : ∀ l, deduplicate l =
      keepFirstOccurrences [] (l.filter (fun m => m.dev)) ++
      keepFirstOccurrences [] (l.filter (fun m => !m.dev)) := by
    intro l
    unfold deduplicate
    dsimp only
    rw [deduplicateSimilarModules_eq, deduplicateSimilarModules_eq]
  refine ⟨heq, ?_, by decide⟩
  intro l
  rw [heq l]
  rw [List.pairwise_append]
  refine ⟨(keepFirstOccurrences_pairwise_names _ []).imp (fun h => Or.inl h),
    (keepFirstOccurrences_pairwise_names _ []).imp (fun h => Or.inl h), ?_⟩
  intro a ha b hb
  have ha2 := keepFirstOccurrences_subset _ [] a ha
  have hb2 := keepFirstOccurrences_subset _ [] b hb
  have hadev : a.dev = true := (List.mem_filter.mp ha2).2
  have hbdev : b.dev = false := by
    have := (List.mem_filter.mp hb2).2
    simpa using this
  exact Or.inr (by rw [hadev, hbdev]; simp)

/-! ### C6: filterRegistryModules removes built-ins and "./" names only -/

theorem jsIndexOf_dotSlash_eq_zero_iff (l : List Char) :
    jsIndexOf "./".data l = 0 ↔ "./".data.isPrefixOf l = true := by
  cases l with
  | nil =>
    constructor
    · intro h
      simp [jsIndexOf, firstOccurIdx] at h
    · intro h
      cases h
  | cons c rest =>
    by_cases hp : "./".data.isPrefixOf (c :: rest) = true
    · simp [jsIndexOf, firstOccurIdx, hp]
    · have hp' : "./".data.isPrefixOf (c :: rest) = false := by
        cases hh : "./".data.isPrefixOf (c :: rest)
        · rfl
        · exact absurd hh hp
      rw [hp']
      unfold jsIndexOf firstOccurIdx
      rw [hp']
      simp only [Bool.false_eq_true, if_false]
      cases h : firstOccurIdx "./".data rest with
      | none => simp
      | some i =>
        simp
        omega

/-- C6 (amended): `filterRegistryModules` removes exactly the modules whose
name is in the built-in list and those whose name starts with the literal
prefix `"./"`; a name beginning with any other relative-path marker (such
as `"../"`) is retained.  The specification's example (removing `"fs"` and
`"./utils"`, keeping the rest) evaluates as claimed. -/
theorem filterRegistryModules_spec :
    (∀ mods (m : ModuleRef), m ∈ filterRegistryModules mods ↔
      m ∈ mods ∧ isBuiltInModule m.name = false ∧ "./".data.isPrefixOf m.name.data = false)
    ∧ filterRegistryModules
        [⟨"fs", false⟩, ⟨"./utils", false⟩, ⟨"lodash", false⟩, ⟨"express", true⟩]
        = [⟨"lodash", false⟩, ⟨"express", true⟩] := by
  refine ⟨?_, by decide⟩
  intro mods m
  unfold filterRegistryModules removeLocalFiles removeBuiltInModules
  rw [List.mem_filter, List.mem_filter]
  constructor
  · rintro ⟨⟨hmem, hbuiltin⟩, hlocal⟩
    refine ⟨hmem, by simpa using hbuiltin, ?_⟩
    have : jsIndexOf "./".data m.name.data ≠ 0 := by simpa using hlocal
    cases hh : "./".data.isPrefixOf m.name.data
    · rfl
    · exact absurd ((jsIndexOf_dotSlash_eq_zero_iff m.name.data).mpr hh) this
  · rintro ⟨hmem, hbuiltin, hlocal⟩
    refine ⟨⟨hmem, by simp [hbuiltin]⟩, ?_⟩
    simp only [decide_eq_true_eq]
    intro hzero
    rw [(jsIndexOf_dotSlash_eq_zero_iff m.name.data).mp hzero] at hlocal
    cases hlocal

/-- C6 counterexample: a name beginning with the relative-path marker
`"../"` survives `filterRegistryModules`, because the source only tests
`name.indexOf('./') !== 0` and `"../x".indexOf("./")` is `1`, not `0`. -/
theorem filterRegistryModules_keeps_parent_relative :
    filterRegistryModules [⟨"../x", false⟩] = [⟨"../x", false⟩] := by decide

/-! ### C10: getFiles ignores its path parameter -/

/-- C10: for a fixed filesystem capability, `getFiles` returns the same
result whatever project-root argument is supplied: it always asks the glob
capability for `**/*.js` with `node_modules` excluded. -/
theorem getFiles_ignores_path :
    (∀ globSync p1 p2, getFiles globSync p1 = getFiles globSync p2)
    ∧ (∀ globSync p, getFiles globSync p = globSync "**/*.js" ["node_modules/**/*"]) :=
  ⟨fun _ _ _ => rfl, fun _ _ => rfl⟩

/-! ### C1: the validator accepts every string input (code bug) -/

/-- C1 (code bug): `isValidModule` returns `true` on every string input -
including `"Foo"`, `"@scope/pkg"`, `"../x"` and `""`, which the claim says
it rejects.  The destructuring parameter `({name, dev})` applied to a
string makes `name` come out as `undefined`, and the regex then tests the
string `"undefined"`, which matches `^[a-z0-9-_]+$`.  Only an object input
is actually tested on its name, as the last conjunct records. -/
theorem isValidModule_string_input_always_true :
    isValidModule (JSVal.str "Foo") = true ∧
    isValidModule (JSVal.str "@scope/pkg") = true ∧
    isValidModule (JSVal.str "../x") = true ∧
    isValidModule (JSVal.str "") = true ∧
    (∀ s, isValidModule (JSVal.str s) = true) ∧
    (∀ name dev, isValidModule (JSVal.obj name dev) = matchesModulePattern name) :=
  ⟨rfl, rfl, rfl, rfl, fun _ => rfl, fun _ _ => rfl⟩

/-! ### C7: the trust gate never reports a module as popular (code bug) -/

/-- C7 (code bug): `isModulePopular` evaluates to `undefined` for every
oracle and every input - the downloads comparison lives in a callback that
the synchronous request API never invokes, and the function has no `return`
statement.  Consequently, in secure mode `installModule` reports even a
module with 20000 oracle-reported downloads (well above the 10000
threshold) as not trusted and never runs its install command. -/
theorem isModulePopular_never_reports_popular :
    (∀ oracle v, isModulePopular oracle v = JSBool.undef)
    ∧ installModule true (fun _ => some 20000) (fun _ => true) ⟨"lodash", false⟩
        = InstallOutcome.notTrusted "lodash not trusted" :=
  ⟨fun _ _ => rfl, by decide⟩

/-! ### C8: install reports its command's outcome, uninstall does not -/

/-- C8 counterexample: `uninstallModule` reports the same removal message
whether its command fails or succeeds - the source discards the
`runCommand` status - so it does not report failure exactly when its
command fails. -/
theorem uninstallModule_ignores_command_status :
    uninstallModule (fun _ => false) ⟨"lodash", false⟩ = "lodash removed" ∧
    uninstallModule (fun _ => true) ⟨"lodash", false⟩ = "lodash removed" := by
  constructor <;> decide

/-- C8 (amended): `installModule` (outside the secure-mode gate) reports an
installation-failed outcome exactly when its command fails; `uninstallModule`
always reports the removal message, regardless of its command's outcome; and
batch processing emits one independent outcome per module, so a failure on
one module never suppresses the processing of the rest. -/
theorem apply_action_reporting :
    (∀ oracle runCmd (m : ModuleRef),
      installModule false oracle runCmd m
          = InstallOutcome.failed (m.name ++ " installation failed")
        ↔ runCmd (installCommand m) = false)
    ∧ (∀ runCmd (m : ModuleRef), uninstallModule runCmd m = uninstallMessage m)
    ∧ (∀ secureMode oracle runCmd (m : ModuleRef) rest,
        installAll secureMode oracle runCmd (m :: rest)
          = installModule secureMode oracle runCmd m
              :: installAll secureMode oracle runCmd rest)
    ∧ (∀ runCmd (m : ModuleRef) rest,
        uninstallAll runCmd (m :: rest)
          = uninstallModule runCmd m :: uninstallAll runCmd rest) := by
  refine ⟨?_, fun _ _ => rfl, fun _ _ _ _ _ => rfl, fun _ _ _ => rfl⟩
  intro oracle runCmd m
  unfold installModule
  cases h : runCmd (installCommand m) <;> simp [h]

/-! ### Regex-scan lemmas for the extraction claims -/

theorem takeInner_eq_some :
    ∀ (l inner rest : List Char), takeInner l = some (inner, rest) →
      l = inner ++ ')' :: rest := by
  intro l
  induction l with
  | nil => intro inner rest h; cases h
  | cons c cs ih =>
    intro inner rest h
    rw [takeInner] at h
    by_cases hc : c = ')'
    · rw [if_pos hc] at h
      injection h with h
      injection h with h1 h2
      subst hc
      rw [← h1, ← h2]
      simp
    · rw [if_neg hc] at h
      by_cases ht : lineTerminator c = true
      · rw [if_pos ht] at h; cases h
      · rw [if_neg ht] at h
        cases hh : takeInner cs with
        | none => rw [hh] at h; cases h
        | some p =>
          rw [hh] at h
          obtain ⟨i, r⟩ := p
          rw [Option.map_some'] at h
          injection h with h
          injection h with h1 h2
          rw [← h1, ← h2]
          rw [List.cons_append]
          rw [← ih i r hh]

theorem takeInner_append (inner rest : List Char)
    (h : ∀ c ∈ inner, ¬ c = ')' ∧ lineTerminator c = false) :
    takeInner (inner ++ ')' :: rest) = some (inner, rest) := by
  induction inner with
  | nil => simp [takeInner]
  | cons c cs ih =>
    have hc := h c (List.mem_cons_self c cs)
    rw [List.cons_append, takeInner, if_neg hc.1,
      if_neg (by rw [hc.2]; exact Bool.false_ne_true)]
    rw [ih (fun c2 hc2 => h c2 (List.mem_cons_of_mem c hc2))]
    rw [Option.map_some']

theorem tryMatch_split (l m r : List Char) (h : tryMatch l = some (m, r)) :
    l = m ++ r ∧ 9 ≤ m.length := by
  unfold tryMatch at h
  by_cases hp : reqPat.isPrefixOf l = true
  · rw [if_pos hp] at h
    cases hh : takeInner (l.drop reqPat.length) with
    | none => rw [hh] at h; cases h
    | some p =>
      rw [hh] at h
      obtain ⟨inner, rest⟩ := p
      injection h with h
      injection h with h1 h2
      obtain ⟨t, ht⟩ := List.isPrefixOf_iff_prefix.mp hp
      have hdrop : l.drop reqPat.length = t := by
        rw [← ht]; exact List.drop_left reqPat t
      have hdecomp : t = inner ++ ')' :: rest := by
        rw [← hdrop]; exact takeInner_eq_some _ _ _ hh
      constructor
      · rw [← h1, ← h2, ← ht, hdecomp]
        simp [List.append_assoc]
      · rw [← h1]
        simp [List.length_append]
        have : reqPat.length = 8 := rfl
        omega
  · rw [if_neg hp] at h; cases h

theorem scanAux_congr :
    ∀ fuel1 fuel2 l, l.length ≤ fuel1 → l.length ≤ fuel2 →
      scanAux fuel1 l = scanAux fuel2 l := by
  intro fuel1
  induction fuel1 using Nat.strong_induction_on with
  | _ fuel1 ih =>
    intro fuel2 l h1 h2
    cases l with
    | nil => cases fuel1 <;> cases fuel2 <;> rfl
    | cons c rest =>
      cases fuel1 with
      | zero => simp at h1
      | succ f1 =>
        cases fuel2 with
        | zero => simp at h2
        | succ f2 =>
          rw [scanAux, scanAux]
          cases hm : tryMatch (c :: rest) with
          | none =>
            exact ih f1 (Nat.lt_succ_self f1) f2 rest
              (by simp at h1; omega) (by simp at h2; omega)
          | some p =>
            obtain ⟨m, r⟩ := p
            have hsplit := tryMatch_split _ _ _ hm
            have hr : r.length ≤ rest.length := by
              have hlen : (c :: rest).length = m.length + r.length := by
                rw [hsplit.1]; simp [List.length_append]
              simp at hlen
              omega
            dsimp only
            congr 1
            exact ih f1 (Nat.lt_succ_self f1) f2 r
              (by simp at h1; omega) (by simp at h2; omega)

theorem scanMatches_nil : scanMatches [] = [] := rfl

theorem scanMatches_cons_none (c : Char) (rest : List Char)
    (h : tryMatch (c :: rest) = none) :
    scanMatches (c :: rest) = scanMatches rest := by
  unfold scanMatches
  rw [show (c :: rest).length = rest.length + 1 from by simp]
  rw [scanAux, h]

theorem scanMatches_eq_match (l m r : List Char) (h : tryMatch l = some (m, r)) :
    scanMatches l = m :: scanMatches r := by
  cases l with
  | nil => rw [show tryMatch [] = none from by decide] at h; cases h
  | cons c rest =>
    unfold scanMatches
    rw [show (c :: rest).length = rest.length + 1 from by simp]
    rw [scanAux, h]
    have hsplit := tryMatch_split _ _ _ h
    have hr : r.length ≤ rest.length := by
      have hlen : (c :: rest).length = m.length + r.length := by
        rw [hsplit.1]; simp [List.length_append]
      simp at hlen
      omega
    dsimp only
    congr 1
    exact scanAux_congr rest.length r.length r hr (le_refl _)

theorem take_agree_of_le (x y : List Char) (n : Nat) (hn : n ≤ x.length) :
    (x ++ y).take n = x.take n := by
  rw [List.take_append_eq_append_take]
  rw [show n - x.length = 0 from by omega]
  simp

theorem isPrefixOf_transfer (a tail : List Char)
    (ht : tail = [] ∨ reqPat <+: tail)
    (h : reqPat.isPrefixOf (a ++ tail) = true) :
    reqPat.isPrefixOf (a ++ reqPat) = true := by
  rw [List.isPrefixOf_iff_prefix] at h ⊢
  rcases ht with rfl | ⟨t, ht⟩
  · rw [List.append_nil] at h
    exact h.trans (List.prefix_append a reqPat)
  · rw [← ht] at h
    rw [List.prefix_iff_eq_take] at h ⊢
    rw [show a ++ (reqPat ++ t) = (a ++ reqPat) ++ t from
      (List.append_assoc a reqPat t).symm] at h
    rw [take_agree_of_le (a ++ reqPat) t reqPat.length
      (by simp [List.length_append])] at h
    exact h

theorem scanMatches_skip (tail : List Char)
    (ht : tail = [] ∨ reqPat <+: tail) :
    ∀ sep : List Char, InertSep sep → scanMatches (sep ++ tail) = scanMatches tail := by
  intro sep
  induction sep with
  | nil => intro _; rfl
  | cons c sep2 ih =>
    intro hsep
    have h0 : reqPat.isPrefixOf ((c :: sep2) ++ tail) = false := by
      cases hpre : reqPat.isPrefixOf ((c :: sep2) ++ tail)
      · rfl
      · exfalso
        have htrans := isPrefixOf_transfer (c :: sep2) tail ht hpre
        have h00 := hsep 0 (by simp)
        rw [List.drop_zero] at h00
        rw [htrans] at h00
        cases h00
    have htm : tryMatch ((c :: sep2) ++ tail) = none := by
      unfold tryMatch
      rw [h0]
      simp
    rw [List.cons_append]
    rw [scanMatches_cons_none c (sep2 ++ tail) (by rw [← List.cons_append]; exact htm)]
    refine ih ?_
    intro p hp
    have hshift := hsep (p + 1) (by simp; omega)
    rw [List.cons_append, List.drop_succ_cons] at hshift
    exact hshift

theorem moduleChar_good (c : Char) (hc : isModuleChar c = true) :
    ¬ c = ')' ∧ lineTerminator c = false := by
  constructor
  · intro h; subst h; exact absurd hc (by decide)
  · cases hl : lineTerminator c
    · rfl
    · exfalso
      simp only [lineTerminator, Bool.or_eq_true, beq_iff_eq] at hl
      rcases hl with ((rfl | rfl) | rfl) | rfl <;> exact absurd hc (by decide)

theorem tryMatch_head (inner rest : List Char)
    (h : ∀ c ∈ inner, ¬ c = ')' ∧ lineTerminator c = false) :
    tryMatch (reqPat ++ (inner ++ ')' :: rest)) = some (reqPat ++ inner ++ [')'], rest) := by
  unfold tryMatch
  have hc : reqPat.isPrefixOf (reqPat ++ (inner ++ ')' :: rest)) = true :=
    List.isPrefixOf_iff_prefix.mpr (List.prefix_append _ _)
  rw [if_pos hc]
  rw [List.drop_left]
  rw [takeInner_append inner rest h]

theorem tryMatch_requireExpr (name : String) (rest : List Char)
    (h : matchesModulePattern name = true) :
    tryMatch (requireExpr name ++ rest) = some (requireExpr name, rest) := by
  have hchars : ∀ c ∈ '"' :: (name.data ++ ['"']), ¬ c = ')' ∧ lineTerminator c = false := by
    intro c hc
    rcases List.mem_cons.mp hc with rfl | hc2
    · exact ⟨by decide, by decide⟩
    · rcases List.mem_append.mp hc2 with hc3 | hc3
      · have hmc : isModuleChar c = true := by
          have hall := ((Bool.and_eq_true _ _).mp h).2
          exact List.all_eq_true.mp hall c hc3
        exact moduleChar_good c hmc
      · have : c = '"' := by simpa using hc3
        subst this; exact ⟨by decide, by decide⟩
  have hrw := tryMatch_head ('"' :: (name.data ++ ['"'])) rest hchars
  rw [show reqPat ++ (('"' :: (name.data ++ ['"'])) ++ ')' :: rest)
      = requireExpr name ++ rest from by simp [requireExpr, List.append_assoc]] at hrw
  rw [show reqPat ++ ('"' :: (name.data ++ ['"'])) ++ [')']
      = requireExpr name from by simp [requireExpr, List.append_assoc]] at hrw
  exact hrw

theorem scanMatches_render (pairs : List (String × List Char)) :
    ∀ s0, InertSep s0 →
      (∀ pr ∈ pairs, InertSep pr.2) →
      (∀ pr ∈ pairs, matchesModulePattern pr.1 = true) →
      scanMatches (render s0 pairs) = pairs.map (fun pr => requireExpr pr.1) := by
  induction pairs with
  | nil =>
    intro s0 h0 _ _
    rw [render]
    have hskip := scanMatches_skip [] (Or.inl rfl) s0 h0
    rw [List.append_nil] at hskip
    rw [hskip]
    rfl
  | cons pr rest ih =>
    intro s0 h0 hseps hnames
    obtain ⟨name, sep⟩ := pr
    rw [render]
    have hpre : reqPat <+: (requireExpr name ++ render sep rest) := by
      have hp1 : reqPat <+: requireExpr name := ⟨'"' :: (name.data ++ ['"', ')']), rfl⟩
      exact hp1.trans (List.prefix_append _ _)
    rw [scanMatches_skip _ (Or.inr hpre) s0 h0]
    have hname := hnames (name, sep) (List.mem_cons_self _ _)
    rw [scanMatches_eq_match _ _ _ (tryMatch_requireExpr name (render sep rest) hname)]
    rw [ih sep (hseps (name, sep) (List.mem_cons_self _ _))
      (fun pr2 h2 => hseps pr2 (List.mem_cons_of_mem _ h2))
      (fun pr2 h2 => hnames pr2 (List.mem_cons_of_mem _ h2))]
    rfl

theorem replaceFirst_head (pat : List Char) (c : Char) (rest : List Char)
    (h : pat.isPrefixOf (c :: rest) = true) :
    replaceFirst pat (c :: rest) = (c :: rest).drop pat.length := by
  rw [replaceFirst, if_pos h]

theorem processMatch_requireExpr (name : String) :
    processMatch (requireExpr name) = name.data := by
  have h1 : replaceFirst "require".data (requireExpr name)
      = '(' :: '"' :: (name.data ++ ['"', ')']) := by
    rw [show requireExpr name
        = 'r' :: 'e' :: 'q' :: 'u' :: 'i' :: 'r' :: 'e' :: '(' :: '"' :: (name.data ++ ['"', ')'])
      from rfl]
    have hpre : ("require".data).isPrefixOf
        ('r' :: 'e' :: 'q' :: 'u' :: 'i' :: 'r' :: 'e' :: '(' :: '"' :: (name.data ++ ['"', ')'])) = true := rfl
    rw [replaceFirst_head _ _ _ hpre]
    rfl
  unfold processMatch
  rw [h1]
  dsimp only
  rw [show ('(' :: '"' :: (name.data ++ ['"', ')'])).drop 2 = name.data ++ ['"', ')'] from rfl]
  rw [show (name.data ++ ['"', ')']).length - 2 = name.data.length from by
    simp [List.length_append]]
  exact List.take_left name.data ['"', ')']

/-! ### C3: extraction yields exactly the well-formed require("x") names -/

/-- C3: a file text assembled from well-formed `require("x")` expressions
whose names match the validation charset, glued together by inert
separators (no occurrence of the literal `require(` starts inside a
separator), extracts to exactly the list of those names, in order.
Separators carry arbitrary other text and need not contain newlines, so
several expressions on one line are each yielded independently. -/
theorem getModulesFromFile_render (s0 : List Char) (pairs : List (String × List Char))
    (h0 : InertSep s0)
    (hseps : ∀ pr ∈ pairs, InertSep pr.2)
    (hnames : ∀ pr ∈ pairs, matchesModulePattern pr.1 = true) :
    getModulesFromFile (String.mk (render s0 pairs)) = pairs.map (fun pr => pr.1) := by
  unfold getModulesFromFile
  dsimp only
  rw [scanMatches_render pairs s0 h0 hseps hnames]
  rw [List.filter_eq_self.mpr (fun a _ => isValidModule_str_true a)]
  rw [List.map_map]
  exact List.map_congr_left (fun pr _ => by
    show String.mk (processMatch (requireExpr pr.1)) = pr.1
    rw [processMatch_requireExpr]) 

/-- Witness for C3: a concrete file text with two well-formed expressions
on a single line extracts to exactly the two names. -/
theorem getModulesFromFile_render_witness :
    getModulesFromFile "require(\"lodash\"); require(\"chalk\")" = ["lodash", "chalk"] := by
  have h := getModulesFromFile_render [] [("lodash", "; ".data), ("chalk", [])]
    (by decide) (by decide) (by decide)
  exact h

/-! ### C2: non-literal require arguments are not skipped but garbled -/

/-- C2 counterexample: for a file containing only `require(someVariable)`
(a call expression whose argument is not a quoted string literal), the
extraction result is not empty - it contains the partial, garbled name
`"omeVariabl"`. -/
theorem getModulesFromFile_nonliteral_counterexample :
    getModulesFromFile "require(someVariable)" = ["omeVariabl"] ∧
    getModulesFromFile "require(someVariable)" ≠ [] := by
  constructor <;> decide

/-- C2 (amended): a `require(...)` call expression whose argument is not a
quoted literal is not silently skipped.  The processing strips the first
two and last two characters of the parenthesised match as if they were
quotes, and the validity check accepts every string (its destructuring
parameter makes it test `"undefined"`), so the garbled remainder is kept:
for any argument text of length at least 1 without `)` or line
terminators, extraction yields exactly the argument with its first and
last characters removed. -/
theorem getModulesFromFile_nonliteral (arg : List Char)
    (hlen : 1 ≤ arg.length)
    (hchars : ∀ c ∈ arg, ¬ c = ')' ∧ lineTerminator c = false) :
    getModulesFromFile (String.mk (reqPat ++ (arg ++ [')'])))
      = [String.mk ((arg.drop 1).take (arg.length - 2))] := by
  have htm : tryMatch (reqPat ++ (arg ++ [')'])) = some (reqPat ++ arg ++ [')'], []) :=
    tryMatch_head arg [] hchars
  have hproc : processMatch (reqPat ++ arg ++ [')'])
      = (arg.drop 1).take (arg.length - 2) := by
    have h1 : replaceFirst "require".data (reqPat ++ arg ++ [')'])
        = '(' :: (arg ++ [')']) := by
      rw [show reqPat ++ arg ++ [')'] = reqPat ++ (arg ++ [')']) from
        List.append_assoc reqPat arg [')']]
      rw [show reqPat ++ (arg ++ [')'])
          = 'r' :: 'e' :: 'q' :: 'u' :: 'i' :: 'r' :: 'e' :: '(' :: (arg ++ [')'])
        from rfl]
      have hpre2 : ("require".data).isPrefixOf
          ('r' :: 'e' :: 'q' :: 'u' :: 'i' :: 'r' :: 'e' :: '(' :: (arg ++ [')'])) = true := rfl
      rw [replaceFirst_head _ _ _ hpre2]
      rfl
    unfold processMatch
    rw [h1]
    dsimp only
    rw [show ('(' :: (arg ++ [')'])).drop 2 = (arg ++ [')']).drop 1 from rfl]
    rw [List.drop_append_eq_append_drop]
    rw [show 1 - arg.length = 0 from by omega]
    rw [List.drop_zero]
    rw [show ((arg.drop 1) ++ [')']).length - 2 = arg.length - 2 from by
      simp [List.length_append, List.length_drop]; omega]
    rw [List.take_append_eq_append_take]
    rw [show arg.length - 2 - (arg.drop 1).length = 0 from by
      simp [List.length_drop]; omega]
    simp
  unfold getModulesFromFile
  dsimp only
  rw [scanMatches_eq_match _ _ _ htm]
  rw [scanMatches_nil]
  rw [show [reqPat ++ arg ++ [')']].map (fun m => String.mk (processMatch m))
      = [String.mk (processMatch (reqPat ++ arg ++ [')']))] from rfl]
  rw [hproc]
  rw [List.filter_eq_self.mpr (fun a _ => isValidModule_str_true a)]

/-- Witness for the amended C2 at the concrete input of the claim. -/
theorem getModulesFromFile_nonliteral_witness :
    getModulesFromFile "require(someVariable)" = ["omeVariabl"] := by
  have h := getModulesFromFile_nonliteral "someVariable".data (by decide) (by decide)
  exact h
